import Mathlib

/-!
Formalization of the core logic of the Helmet-Detection repository.

The development shallowly embeds:
* `src/core/dectector.py` — `ViolationDetector._check_violations`,
  `ViolationDetector._has_nearby_helmet`, `ViolationDetector._get_bbox_center`;
* `src/core/model.py` — `YOLOModel._apply_nms` (which delegates to
  `cv2.dnn.NMSBoxes`, embedded here following OpenCV's `NMSFast_` /
  `GetMaxScoreIndex` / `rectOverlap` semantics);
* `src/utils/notifier.py` — `NotificationManager.send_violation_notice`,
  `NotificationManager._process_notification_queue`,
  `NotificationManager.get_notification_stats`;
* `src/utils/database.py` — `DatabaseManager.get_violations`.

Machine floats are modelled by exact rationals; Python integers by `ℤ`.
-/

/-- Bounding box `(x, y, width, height)`, the tuple used throughout the
Python code (`detection['bbox']`). Coordinates are Python ints. -/
structure BBox where
  x : ℤ
  y : ℤ
  w : ℤ
  h : ℤ
deriving DecidableEq, Repr

/-- Embeds `ViolationDetector._get_bbox_center`: the Python code computes
`(x + w//2, y + h//2)` with floor division `//`, which on ints is `Int.fdiv`. -/
def getBboxCenter (b : BBox) : ℤ × ℤ :=
  (b.x + Int.fdiv b.w 2, b.y + Int.fdiv b.h 2)

/-- Squared Euclidean distance between two integer points; the quantity under
the square root in `np.linalg.norm(np.array(p) - np.array(q))`. -/
def distSq (p q : ℤ × ℤ) : ℤ :=
  (p.1 - q.1) ^ 2 + (p.2 - q.2) ^ 2

/-- A classified detection as it reaches `ViolationDetector._check_violations`:
the dict `{'class_name': ..., 'confidence': ..., 'bbox': ...}`. -/
structure Det where
  className : String
  confidence : ℚ
  bbox : BBox
deriving DecidableEq, Repr

/-- A violation record as built by `_check_violations`:
`{'type': 'no_helmet', 'confidence': ..., 'bbox': ..., 'rider_detection': ...}`. -/
structure Violation where
  vtype : String
  confidence : ℚ
  bbox : BBox
  riderDetection : Det
deriving DecidableEq, Repr

/-- Embeds `ViolationDetector._has_nearby_helmet`. The Python loop tests
`np.linalg.norm(rider_center - helmet_center) < MAX_HELMET_DISTANCE` and
returns on the first hit. Since the norm is `Real.sqrt (distSq ..)` and
`distSq` is nonneg, the float comparison is equivalent to
`0 ≤ maxDist ∧ distSq < maxDist ^ 2`, which is decidable over `ℚ`; the
equivalence with the square-root form is proved in
`hasNearbyHelmet_iff_exists_close` below. -/
def hasNearbyHelmet (maxDist : ℚ) (rider : Det) : List Det → Bool
  | [] => false
  | helmet :: rest =>
    if 0 ≤ maxDist ∧
        ((distSq (getBboxCenter rider.bbox) (getBboxCenter helmet.bbox) : ℤ) : ℚ)
          < maxDist ^ 2 then
      true
    else
      hasNearbyHelmet maxDist rider rest

/-- Embeds the partition loop at the top of `_check_violations`: detections
below `min_confidence` are skipped (`continue`), the rest are appended to the
`riders` or `helmets` list according to `class_name`, in input order. -/
def partitionDets (minConf : ℚ) : List Det → List Det × List Det
  | [] => ([], [])
  | d :: rest =>
    let p := partitionDets minConf rest
    if d.confidence < minConf then p
    else if d.className = "rider" then (d :: p.1, p.2)
    else if d.className = "helmet" then (p.1, d :: p.2)
    else p

/-- Embeds the violation-building loop of `_check_violations`: for each rider
with no nearby helmet, append one `no_helmet` violation carrying the rider's
confidence and bbox. -/
def buildViolations (maxDist : ℚ) (helmets : List Det) : List Det → List Violation
  | [] => []
  | r :: rest =>
    if hasNearbyHelmet maxDist r helmets then
      buildViolations maxDist helmets rest
    else
      { vtype := "no_helmet", confidence := r.confidence, bbox := r.bbox,
        riderDetection := r } :: buildViolations maxDist helmets rest

/-- Embeds `ViolationDetector._check_violations`: partition by class and
confidence, then — only when `len(riders) > len(helmets)` — emit one
violation per rider lacking a nearby helmet. -/
def checkViolations (minConf maxDist : ℚ) (dets : List Det) : List Violation :=
  let p := partitionDets minConf dets
  if p.1.length > p.2.length then buildViolations maxDist p.2 p.1 else []

/-- The riders surviving the confidence filter, as a plain filter over the
input: characterizes the first component of `partitionDets`. -/
def qualifyingRiders (minConf : ℚ) (dets : List Det) : List Det :=
  dets.filter fun d => !decide (d.confidence < minConf) && (d.className == "rider")

/-- The helmets surviving the confidence filter, as a plain filter over the
input: characterizes the second component of `partitionDets`. -/
def qualifyingHelmets (minConf : ℚ) (dets : List Det) : List Det :=
  dets.filter fun d => !decide (d.confidence < minConf) && (d.className == "helmet")

/-- The `no_helmet` violation record built from a rider detection. -/
def noHelmetViolation (r : Det) : Violation :=
  { vtype := "no_helmet", confidence := r.confidence, bbox := r.bbox,
    riderDetection := r }

lemma partitionDets_fst (minConf : ℚ) (dets : List Det) :
    (partitionDets minConf dets).1 = qualifyingRiders minConf dets := by
  induction dets with
  | nil => rfl
  | cons d rest ih =>
    simp only [partitionDets, qualifyingRiders, List.filter_cons] at *
    by_cases h1 : d.confidence < minConf
    · simp [h1, ih]
    · by_cases h2 : d.className = "rider"
      · simp [h1, h2, ih]
      · by_cases h3 : d.className = "helmet"
        · simp [h1, h2, h3, ih]
        · simp [h1, h2, h3, ih]

lemma partitionDets_snd (minConf : ℚ) (dets : List Det) :
    (partitionDets minConf dets).2 = qualifyingHelmets minConf dets := by
  induction dets with
  | nil => rfl
  | cons d rest ih =>
    simp only [partitionDets, qualifyingHelmets, List.filter_cons] at *
    by_cases h1 : d.confidence < minConf
    · simp [h1, ih]
    · by_cases h2 : d.className = "rider"
      · simp [h1, h2, ih]
      · by_cases h3 : d.className = "helmet"
        · simp [h1, h2, h3, ih]
        · simp [h1, h2, h3, ih]

lemma buildViolations_eq_filter_map (maxDist : ℚ) (helmets riders : List Det) :
    buildViolations maxDist helmets riders
      = (riders.filter fun r => !hasNearbyHelmet maxDist r helmets).map
          noHelmetViolation := by
  induction riders with
  | nil => rfl
  | cons r rest ih =>
    simp only [buildViolations, List.filter_cons]
    by_cases h : hasNearbyHelmet maxDist r helmets
    · simp [h, ih]
    · simp [h, ih, noHelmetViolation]

lemma intCast_fdiv_two_eq_iff (n : ℤ) :
    ((Int.fdiv n 2 : ℤ) : ℚ) = (n : ℚ) / 2 ↔ (2 : ℤ) ∣ n := by
  rw [Int.fdiv_eq_ediv _ (by norm_num)]
  constructor
  · intro h
    have h2 : ((2 * (n / 2) : ℤ) : ℚ) = ((n : ℤ) : ℚ) := by push_cast; rw [h]; ring
    exact ⟨n / 2, (Int.cast_injective h2).symm⟩
  · rintro ⟨k, rfl⟩
    rw [Int.mul_ediv_cancel_left _ (by norm_num)]
    push_cast
    ring

/-- Claim C9 (counterexample): for the bounding box `(0, 0, 1, 1)` the center
computed by `_get_bbox_center` is `(0, 0)` (floor division `w//2`), which is
not the exact `(x + width/2, y + height/2) = (1/2, 1/2)`. -/
theorem getBboxCenter_ne_exact_half :
    ¬((((getBboxCenter ⟨0, 0, 1, 1⟩).1 : ℤ) : ℚ) = (0 : ℚ) + 1 / 2 ∧
      (((getBboxCenter ⟨0, 0, 1, 1⟩).2 : ℤ) : ℚ) = (0 : ℚ) + 1 / 2) := by
  have hc : getBboxCenter ⟨0, 0, 1, 1⟩ = (0, 0) := rfl
  rw [hc]
  norm_num

/-- Claim C9 (amended): the derived center is `(x + w//2, y + h//2)` with
floor division; it coincides with the exact value `(x + width/2, y + height/2)`
precisely when the width (resp. height) is even. -/
theorem getBboxCenter_exact_iff_even (b : BBox) :
    ((((getBboxCenter b).1 : ℤ) : ℚ) = (b.x : ℚ) + (b.w : ℚ) / 2 ↔ (2 : ℤ) ∣ b.w) ∧
    ((((getBboxCenter b).2 : ℤ) : ℚ) = (b.y : ℚ) + (b.h : ℚ) / 2 ↔ (2 : ℤ) ∣ b.h) := by
  refine ⟨?_, ?_⟩
  · rw [← intCast_fdiv_two_eq_iff b.w]
    unfold getBboxCenter
    push_cast
    exact add_right_inj _
  · rw [← intCast_fdiv_two_eq_iff b.h]
    unfold getBboxCenter
    push_cast
    exact add_right_inj _

lemma distSq_nonneg (p q : ℤ × ℤ) : 0 ≤ distSq p q :=
  add_nonneg (sq_nonneg _) (sq_nonneg _)

lemma sqrt_lt_iff_ratCond (s : ℤ) (hs : 0 ≤ s) (m : ℚ) :
    (0 ≤ m ∧ (s : ℚ) < m ^ 2) ↔ Real.sqrt ((s : ℤ) : ℝ) < (m : ℝ) := by
  rcases lt_or_le 0 m with hm | hm
  · rw [Real.sqrt_lt' (by exact_mod_cast hm)]
    constructor
    · rintro ⟨-, h⟩
      exact_mod_cast h
    · intro h
      exact ⟨le_of_lt hm, by exact_mod_cast h⟩
  · constructor
    · rintro ⟨h0, h⟩
      have hm0 : m = 0 := le_antisymm hm h0
      subst hm0
      rw [zero_pow (by norm_num : (2 : ℕ) ≠ 0)] at h
      have hs' : (0 : ℚ) ≤ (s : ℚ) := by exact_mod_cast hs
      exact absurd h (not_lt.mpr hs')
    · intro h
      have : (m : ℝ) ≤ 0 := by exact_mod_cast hm
      exact absurd h (not_lt.mpr (le_trans this (Real.sqrt_nonneg _)))

/-- Claim C5: `_has_nearby_helmet` judges a rider compliant exactly when some
helmet detection has its center at Euclidean distance strictly below
`max_helmet_distance` from the rider's center — a pure existence check over
the helmet list, so one helmet can satisfy several riders. -/
theorem hasNearbyHelmet_iff_exists_close (maxDist : ℚ) (r : Det) (hs : List Det) :
    hasNearbyHelmet maxDist r hs = true ↔
      ∃ h ∈ hs,
        Real.sqrt ((distSq (getBboxCenter r.bbox) (getBboxCenter h.bbox) : ℤ) : ℝ)
          < (maxDist : ℝ) := by
  induction hs with
  | nil => simp [hasNearbyHelmet]
  | cons helmet rest ih =>
    rw [hasNearbyHelmet]
    split_ifs with hc
    · constructor
      · intro _
        exact ⟨helmet, List.mem_cons_self _ _,
          (sqrt_lt_iff_ratCond _ (distSq_nonneg _ _) maxDist).mp hc⟩
      · intro _
        rfl
    · rw [ih]
      constructor
      · rintro ⟨h, hmem, hlt⟩
        exact ⟨h, List.mem_cons_of_mem _ hmem, hlt⟩
      · rintro ⟨h, hmem, hlt⟩
        rcases List.mem_cons.mp hmem with rfl | hmem'
        · exact absurd ((sqrt_lt_iff_ratCond _ (distSq_nonneg _ _) maxDist).mpr hlt) hc
        · exact ⟨h, hmem', hlt⟩

/-- Claim C1 (counterexample): with `min_confidence = 1/2` and
`max_helmet_distance = 50`, a frame holding one qualifying rider with no
helmet anywhere near it and one distant helmet yields NO violation, because
`_check_violations` only emits violations when `len(riders) > len(helmets)`;
the claim demands exactly one `no_helmet` violation for this rider. -/
theorem checkViolations_misses_rider_when_counts_equal :
    (mkRat 1 2 ≤ (⟨"rider", mkRat 9 10, ⟨0, 0, 10, 10⟩⟩ : Det).confidence) ∧
    (⟨"rider", mkRat 9 10, ⟨0, 0, 10, 10⟩⟩ : Det).className = "rider" ∧
    hasNearbyHelmet 50 ⟨"rider", mkRat 9 10, ⟨0, 0, 10, 10⟩⟩
      [⟨"helmet", mkRat 9 10, ⟨1000, 1000, 10, 10⟩⟩] = false ∧
    checkViolations (mkRat 1 2) 50
      [⟨"rider", mkRat 9 10, ⟨0, 0, 10, 10⟩⟩,
        ⟨"helmet", mkRat 9 10, ⟨1000, 1000, 10, 10⟩⟩] = [] := by
  decide

/-- Claim C1 (amended): when the number of confidence-qualifying riders
strictly exceeds the number of confidence-qualifying helmets, every
qualifying rider with no helmet within `max_helmet_distance` of its center
produces exactly one `no_helmet` violation carrying that rider's own
confidence and bbox (the output is exactly the in-order map over those
riders); otherwise `_check_violations` returns no violations at all. -/
theorem checkViolations_eq_filter_map (minConf maxDist : ℚ) (dets : List Det) :
    checkViolations minConf maxDist dets
      = if (qualifyingRiders minConf dets).length > (qualifyingHelmets minConf dets).length then
          ((qualifyingRiders minConf dets).filter fun r =>
              !hasNearbyHelmet maxDist r (qualifyingHelmets minConf dets)).map
            noHelmetViolation
        else [] := by
  simp only [checkViolations, partitionDets_fst, partitionDets_snd,
    buildViolations_eq_filter_map]

/-- A detection as built by `YOLOModel.postprocess_detections` and fed to
`_apply_nms`: the dict `{'class_id': ..., 'confidence': ..., 'bbox': ...}`. -/
structure NDet where
  classId : ℕ
  confidence : ℚ
  bbox : BBox
deriving DecidableEq, Repr

/-- Intersection area of two `cv::Rect`s, as computed by `operator &`: the
intersection rectangle is empty (area `0`) unless both its width and height
are positive. -/
def interArea (a b : BBox) : ℤ :=
  let iw := min (a.x + a.w) (b.x + b.w) - max a.x b.x
  let ih := min (a.y + a.h) (b.y + b.h) - max a.y b.y
  if 0 < iw ∧ 0 < ih then iw * ih else 0

/-- OpenCV's `rectOverlap` = `1 - jaccardDistance`: intersection over union,
with overlap `1` when both areas vanish (the `(Aa + Ab) <= eps` guard of
`jaccardDistance`, which for integer-valued areas is `Aa + Ab ≤ 0`). -/
def rectOverlap (a b : BBox) : ℚ :=
  let areaA := a.w * a.h
  let areaB := b.w * b.h
  if areaA + areaB ≤ 0 then 1
  else ((interArea a b : ℤ) : ℚ) / (((areaA : ℤ) : ℚ) + ((areaB : ℤ) : ℚ) - ((interArea a b : ℤ) : ℚ))

/-- Stable insertion used to embed the `std::stable_sort` over `(score, index)`
pairs in OpenCV's `GetMaxScoreIndex` with comparator `score₁ > score₂`: an
element moves left past exactly the elements of strictly smaller score, so
equal scores keep their first-seen (input) order. -/
def sInsert (d : NDet) : List NDet → List NDet
  | [] => [d]
  | e :: rest => if d.confidence < e.confidence then e :: sInsert d rest else d :: e :: rest

/-- Stable sort by strictly descending confidence (ties in input order),
embedding `GetMaxScoreIndex`'s `std::stable_sort`. -/
def sortByScore : List NDet → List NDet
  | [] => []
  | d :: rest => sInsert d (sortByScore rest)

/-- Greedy selection loop of OpenCV's `NMSFast_` (with `eta = 1`): walk the
score-sorted list, keeping a detection exactly when its overlap with every
previously kept detection is at most the NMS threshold. -/
def nmsKeep (t : ℚ) (kept : List NDet) : List NDet → List NDet
  | [] => []
  | d :: rest =>
    if kept.all (fun k => decide (rectOverlap k.bbox d.bbox ≤ t)) then
      d :: nmsKeep t (kept ++ [d]) rest
    else
      nmsKeep t kept rest

/-- Embeds `YOLOModel._apply_nms`: an explicit empty-input guard, then
`cv2.dnn.NMSBoxes(boxes, scores, confidence_threshold, nms_threshold)` —
drop scores not exceeding the score threshold (`GetMaxScoreIndex` keeps
`score > threshold`), stable-sort by descending score, and run the greedy
suppression; the surviving indices are mapped back to the detections, which
is the same as running the pipeline on the detections directly since `boxes`
and `scores` are extracted positionally from the detection list. -/
def applyNMS (scoreT nmsT : ℚ) (dets : List NDet) : List NDet :=
  if dets.isEmpty then []
  else nmsKeep nmsT [] (sortByScore (dets.filter fun d => decide (scoreT < d.confidence)))

lemma sInsert_perm (d : NDet) (l : List NDet) : (sInsert d l).Perm (d :: l) := by
  induction l with
  | nil => exact List.Perm.refl _
  | cons e rest ih =>
    rw [sInsert]
    split_ifs with h
    · exact ((ih.cons e).trans (List.Perm.swap d e rest))
    · exact List.Perm.refl _

lemma sortByScore_perm (l : List NDet) : (sortByScore l).Perm l := by
  induction l with
  | nil => exact List.Perm.refl _
  | cons d rest ih =>
    exact (sInsert_perm d (sortByScore rest)).trans (ih.cons d)

lemma sInsert_sorted (d : NDet) (l : List NDet)
    (hl : l.Pairwise fun a b => b.confidence ≤ a.confidence) :
    (sInsert d l).Pairwise fun a b => b.confidence ≤ a.confidence := by
  induction l with
  | nil => simp [sInsert]
  | cons e rest ih =>
    rw [sInsert]
    rcases List.pairwise_cons.mp hl with ⟨he, hrest⟩
    split_ifs with h
    · refine List.pairwise_cons.mpr ⟨?_, ih hrest⟩
      intro b hb
      rcases List.mem_cons.mp ((sInsert_perm d rest).mem_iff.mp hb) with rfl | hb'
      · exact le_of_lt h
      · exact he b hb'
    · refine List.pairwise_cons.mpr ⟨?_, hl⟩
      intro b hb
      rcases List.mem_cons.mp hb with rfl | hb
      · exact not_lt.mp h
      · exact le_trans (he b hb) (not_lt.mp h)

lemma sortByScore_sorted (l : List NDet) :
    (sortByScore l).Pairwise fun a b => b.confidence ≤ a.confidence := by
  induction l with
  | nil => simp [sortByScore]
  | cons d rest ih => exact sInsert_sorted d _ ih

lemma sInsert_eq_cons (d : NDet) (l : List NDet)
    (h : ∀ e ∈ l, e.confidence ≤ d.confidence) : sInsert d l = d :: l := by
  cases l with
  | nil => rfl
  | cons e rest =>
    rw [sInsert, if_neg]
    exact not_lt.mpr (h e (List.mem_cons_self _ _))

lemma sortByScore_eq_self (l : List NDet)
    (hl : l.Pairwise fun a b => b.confidence ≤ a.confidence) : sortByScore l = l := by
  induction l with
  | nil => rfl
  | cons d rest ih =>
    rcases List.pairwise_cons.mp hl with ⟨hd, hrest⟩
    rw [sortByScore, ih hrest, sInsert_eq_cons d rest hd]

lemma nmsKeep_sublist (t : ℚ) (kept l : List NDet) : (nmsKeep t kept l).Sublist l := by
  induction l generalizing kept with
  | nil => simp [nmsKeep]
  | cons d rest ih =>
    rw [nmsKeep]
    split_ifs with h
    · exact (ih (kept ++ [d])).cons₂ d
    · exact (ih kept).cons d

lemma nmsKeep_checked (t : ℚ) (kept l : List NDet) :
    ∀ e ∈ nmsKeep t kept l, ∀ k ∈ kept, rectOverlap k.bbox e.bbox ≤ t := by
  induction l generalizing kept with
  | nil => simp [nmsKeep]
  | cons d rest ih =>
    rw [nmsKeep]
    split_ifs with h
    · intro e he k hk
      rcases List.mem_cons.mp he with rfl | he
      · have := List.all_eq_true.mp h k hk
        exact of_decide_eq_true this
      · exact ih (kept ++ [d]) e he k (List.mem_append_left _ hk)
    · exact ih kept

lemma nmsKeep_pairwise (t : ℚ) (kept l : List NDet) :
    (nmsKeep t kept l).Pairwise fun a b => rectOverlap a.bbox b.bbox ≤ t := by
  induction l generalizing kept with
  | nil => simp [nmsKeep]
  | cons d rest ih =>
    rw [nmsKeep]
    split_ifs with h
    · refine List.pairwise_cons.mpr ⟨?_, ih (kept ++ [d])⟩
      intro e he
      exact nmsKeep_checked t _ rest e he d (List.mem_append_right _ (List.mem_singleton_self d))
    · exact ih kept

lemma nmsKeep_eq_self (t : ℚ) (kept l : List NDet)
    (hk : ∀ k ∈ kept, ∀ d ∈ l, rectOverlap k.bbox d.bbox ≤ t)
    (hl : l.Pairwise fun a b => rectOverlap a.bbox b.bbox ≤ t) :
    nmsKeep t kept l = l := by
  induction l generalizing kept with
  | nil => rfl
  | cons d rest ih =>
    rcases List.pairwise_cons.mp hl with ⟨hd, hrest⟩
    rw [nmsKeep, if_pos]
    · rw [ih (kept ++ [d]) ?_ hrest]
      intro k hkmem e he
      rcases List.mem_append.mp hkmem with hkmem | hkmem
      · exact hk k hkmem e (List.mem_cons_of_mem _ he)
      · rw [List.mem_singleton.mp hkmem]
        exact hd e he
    · exact List.all_eq_true.mpr fun k hkmem =>
        decide_eq_true (hk k hkmem d (List.mem_cons_self _ _))


/-- Claim C6: non-maximum suppression is idempotent — applying `_apply_nms`
to its own output returns that output unchanged, for every detection list. -/
theorem applyNMS_idempotent (s t : ℚ) (dets : List NDet) :
    applyNMS s t (applyNMS s t dets) = applyNMS s t dets := by
  by_cases hd : dets.isEmpty
  · have h1 : applyNMS s t dets = [] := by rw [applyNMS, if_pos hd]
    rw [h1]
    rfl
  · have hL : applyNMS s t dets
        = nmsKeep t [] (sortByScore (dets.filter fun d => decide (s < d.confidence))) := by
      rw [applyNMS, if_neg hd]
    by_cases h0 : applyNMS s t dets = []
    · rw [h0]
      rfl
    · have hmem : ∀ e ∈ applyNMS s t dets, decide (s < e.confidence) = true := by
        intro e he
        rw [hL] at he
        have he2 : e ∈ sortByScore (dets.filter fun d => decide (s < d.confidence)) :=
          (nmsKeep_sublist t [] _).subset he
        have he3 := (sortByScore_perm _).mem_iff.mp he2
        exact (List.mem_filter.mp he3).2
      have hfilter : (applyNMS s t dets).filter (fun d => decide (s < d.confidence))
          = applyNMS s t dets := List.filter_eq_self.mpr hmem
      have hsorted : (applyNMS s t dets).Pairwise fun a b => b.confidence ≤ a.confidence := by
        rw [hL]
        exact (sortByScore_sorted _).sublist (nmsKeep_sublist t [] _)
      have hpair : (applyNMS s t dets).Pairwise fun a b => rectOverlap a.bbox b.bbox ≤ t := by
        rw [hL]
        exact nmsKeep_pairwise t [] _
      have hne : (applyNMS s t dets).isEmpty = false := by
        cases hq : applyNMS s t dets with
        | nil => exact absurd hq h0
        | cons a l => rfl
      conv_lhs => rw [applyNMS]
      rw [if_neg (by rw [hne]; exact Bool.false_ne_true), hfilter,
        sortByScore_eq_self _ hsorted,
        nmsKeep_eq_self t [] _ (fun k hk => absurd hk (List.not_mem_nil k)) hpair]

lemma nmsPairSuppressAux (s t : ℚ) (d1 d2 : NDet)
    (h1 : s < d1.confidence) (h2 : s < d2.confidence)
    (hle : d2.confidence ≤ d1.confidence)
    (hov : t < rectOverlap d1.bbox d2.bbox) :
    applyNMS s t [d1, d2] = [d1] := by
  have hcond : (([d1] : List NDet).all fun k => decide (rectOverlap k.bbox d2.bbox ≤ t))
      = false := by
    simp only [List.all_cons, List.all_nil, Bool.and_true, decide_eq_false_iff_not, not_le]
    exact hov
  calc applyNMS s t [d1, d2]
      = nmsKeep t [] [d1, d2] := by
        rw [applyNMS, if_neg (by simp)]
        rw [show ([d1, d2] : List NDet).filter (fun d => decide (s < d.confidence)) = [d1, d2]
          from by simp [List.filter, h1, h2]]
        rw [show sortByScore [d1, d2] = [d1, d2] from by
          rw [sortByScore, sortByScore, sortByScore, sInsert, sInsert,
            if_neg (not_lt.mpr hle)]]
    _ = d1 :: nmsKeep t [d1] [d2] := rfl
    _ = d1 :: nmsKeep t [d1] [] := by
        conv_lhs => rw [nmsKeep]
        rw [if_neg (by rw [hcond]; exact Bool.false_ne_true)]
    _ = [d1] := rfl

/-- Claim C2 (counterexample): two detections with identical bounding boxes
but different class ids: alone (restricted to its own class) the lower-scored
detection survives NMS, yet in the joint list it is suppressed by the
higher-scored detection of the other class — `_apply_nms` passes all boxes to
`cv2.dnn.NMSBoxes` with no class separation. -/
theorem applyNMS_cross_class_suppression :
    (⟨0, mkRat 9 10, ⟨0, 0, 10, 10⟩⟩ : NDet).classId
        ≠ (⟨1, mkRat 8 10, ⟨0, 0, 10, 10⟩⟩ : NDet).classId ∧
    applyNMS (mkRat 1 2) (mkRat 2 5) [⟨1, mkRat 8 10, ⟨0, 0, 10, 10⟩⟩]
        = [⟨1, mkRat 8 10, ⟨0, 0, 10, 10⟩⟩] ∧
    applyNMS (mkRat 1 2) (mkRat 2 5)
        [⟨0, mkRat 9 10, ⟨0, 0, 10, 10⟩⟩, ⟨1, mkRat 8 10, ⟨0, 0, 10, 10⟩⟩]
        = [⟨0, mkRat 9 10, ⟨0, 0, 10, 10⟩⟩] := by
  refine ⟨by decide, by decide, ?_⟩
  refine nmsPairSuppressAux _ _ _ _ (by decide) (by decide) (by decide) ?_
  rw [show rectOverlap (⟨0, 0, 10, 10⟩ : BBox) ⟨0, 0, 10, 10⟩ = 1 from by
    norm_num [rectOverlap, interArea]]
  norm_num

/-- Claim C2 (amended): suppression is applied jointly across classes,
ignoring class ids entirely: whenever two detections (of any classes) both
exceed the score threshold and their boxes overlap more than the NMS
threshold, only the higher-confidence one survives, even when the classes
differ. -/
theorem applyNMS_pair_suppress (s t : ℚ) (d1 d2 : NDet)
    (h1 : s < d1.confidence) (h2 : s < d2.confidence)
    (hle : d2.confidence ≤ d1.confidence)
    (hov : t < rectOverlap d1.bbox d2.bbox) :
    applyNMS s t [d1, d2] = [d1] :=
  nmsPairSuppressAux s t d1 d2 h1 h2 hle hov

/-- Concrete instance for `applyNMS_pair_suppress`: identical boxes, scores
9/10 and 8/10, score threshold 1/2, NMS threshold 2/5. -/
theorem applyNMS_pair_suppress_witness :
    ((mkRat 1 2 < (⟨0, mkRat 9 10, ⟨0, 0, 10, 10⟩⟩ : NDet).confidence) ∧
     (mkRat 1 2 < (⟨1, mkRat 8 10, ⟨0, 0, 10, 10⟩⟩ : NDet).confidence) ∧
     ((⟨1, mkRat 8 10, ⟨0, 0, 10, 10⟩⟩ : NDet).confidence
        ≤ (⟨0, mkRat 9 10, ⟨0, 0, 10, 10⟩⟩ : NDet).confidence) ∧
     (mkRat 2 5 < rectOverlap (⟨0, 0, 10, 10⟩ : BBox) ⟨0, 0, 10, 10⟩)) ∧
    applyNMS (mkRat 1 2) (mkRat 2 5)
        [⟨0, mkRat 9 10, ⟨0, 0, 10, 10⟩⟩, ⟨1, mkRat 8 10, ⟨0, 0, 10, 10⟩⟩]
      = [⟨0, mkRat 9 10, ⟨0, 0, 10, 10⟩⟩] :=
  ⟨⟨by decide, by decide, by decide, by
      rw [show rectOverlap (⟨0, 0, 10, 10⟩ : BBox) ⟨0, 0, 10, 10⟩ = 1 from by
        norm_num [rectOverlap, interArea]]
      norm_num⟩,
   applyNMS_pair_suppress _ _ _ _ (by decide) (by decide) (by decide) (by
      rw [show rectOverlap (⟨0, 0, 10, 10⟩ : BBox) ⟨0, 0, 10, 10⟩ = 1 from by
        norm_num [rectOverlap, interArea]]
      norm_num)⟩

/-- A queued notification as built by `send_violation_notice` /
`send_fine_receipt`: the dict `{'msg': ..., 'recipient': ..., 'type': ...,
'retry_count': ...}` (the rendered MIME message is summarized by its
recipient). -/
structure NJob where
  recipient : String
  ntype : String
  retryCount : ℕ
deriving DecidableEq, Repr

/-- State of a `NotificationManager`: the worker queue (`notification_queue`,
FIFO) plus the ghost history of successful `_send_email` deliveries, used to
express "jobs that reached SENT" (the Python code keeps no such record —
which is exactly what claims C3 and C7 are about). -/
structure NState where
  queue : List NJob
  sentLog : List NJob
deriving DecidableEq, Repr

/-- The fixed backoff schedule `self.retry_delays = [5, 15, 30]`. -/
def retryDelays : List ℕ := [5, 15, 30]

/-- The fresh state of a `NotificationManager`. -/
def initState : NState := { queue := [], sentLog := [] }

/-- The payload handed to `send_violation_notice`; `ownerEmail = none` models
a dict with no `'owner_email'` key (reading it raises `KeyError`). -/
structure ViolationData where
  ownerEmail : Option String
  licensePlate : String
deriving DecidableEq, Repr

/-- Embeds `NotificationManager.send_violation_notice`: building the message
reads `violation_data['owner_email']`; a missing key raises, is caught by the
blanket `except`, and the method returns `False` with the queue untouched.
Any present string — valid address or not — is accepted: the job is appended
with `retry_count = 0` and the method returns `True`. -/
def sendViolationNotice (st : NState) (v : ViolationData) : Bool × NState :=
  match v.ownerEmail with
  | none => (false, st)
  | some addr =>
    (true, { st with queue := st.queue ++ [⟨addr, "violation_notice", 0⟩] })

/-- Embeds one iteration of the worker loop
`NotificationManager._process_notification_queue` in which a job is popped
and a delivery attempt is made with outcome `success`: on success the job is
done (recorded in the ghost `sentLog`); on failure with
`retry_count < len(retry_delays)` the count is incremented and the job is
re-queued; on failure with the budget exhausted the job is simply dropped —
the code has no DEAD status, no dead-letter record and no failure callback.
With an empty queue the iteration does nothing. -/
def workerStep (success : Bool) (st : NState) : NState :=
  match st.queue with
  | [] => st
  | n :: rest =>
    if success then
      { queue := rest, sentLog := st.sentLog ++ [n] }
    else if n.retryCount < retryDelays.length then
      { st with queue := rest ++ [{ n with retryCount := n.retryCount + 1 }] }
    else
      { st with queue := rest }

/-- Embeds `NotificationManager.get_notification_stats`: `queue_size` is read
live from the queue, while `notifications_sent` and `failed_notifications`
delegate to the stubs `_get_sent_count` / `_get_failed_count`, which always
return `0`. -/
def getNotificationStats (st : NState) : ℕ × ℕ × ℕ :=
  (st.queue.length, 0, 0)

/-- An observable event of the notification manager: an `enqueue` via
`send_violation_notice`, or one worker-loop delivery attempt with the given
transport outcome. -/
inductive NEvent where
  | enqueue (v : ViolationData)
  | attempt (success : Bool)
deriving DecidableEq, Repr

/-- Applies one event to the state. -/
def applyEvent (e : NEvent) (st : NState) : NState :=
  match e with
  | NEvent.enqueue v => (sendViolationNotice st v).2
  | NEvent.attempt success => workerStep success st

/-- Runs a sequence of events from a state. -/
def runEvents : List NEvent → NState → NState
  | [], st => st
  | e :: rest, st => runEvents rest (applyEvent e st)

/-- Number of enqueue events whose payload actually carries a recipient
address (the only ones that create a job). -/
def presentEnqueues : List NEvent → ℕ
  | [] => 0
  | NEvent.enqueue v :: rest => (if v.ownerEmail.isSome then 1 else 0) + presentEnqueues rest
  | NEvent.attempt _ :: rest => presentEnqueues rest

/-- Total number of jobs the machinery has ever accepted and not dropped:
still queued or successfully sent. -/
def totalJobs (st : NState) : ℕ := st.queue.length + st.sentLog.length

lemma applyEvent_retry_bound (e : NEvent) (st : NState)
    (hst : ∀ j ∈ st.queue, j.retryCount ≤ retryDelays.length) :
    ∀ j ∈ (applyEvent e st).queue, j.retryCount ≤ retryDelays.length := by
  intro j hj
  cases e with
  | enqueue v =>
    cases hv : v.ownerEmail with
    | none =>
      simp only [applyEvent, sendViolationNotice, hv] at hj
      exact hst j hj
    | some addr =>
      simp only [applyEvent, sendViolationNotice, hv] at hj
      rcases List.mem_append.mp hj with hj | hj
      · exact hst j hj
      · rw [List.mem_singleton.mp hj]
        exact Nat.zero_le _
  | attempt success =>
    cases hq : st.queue with
    | nil =>
      simp only [applyEvent, workerStep, hq] at hj
      rw [hq] at hst
      exact hst j hj
    | cons n rest =>
      have hn : n.retryCount ≤ retryDelays.length := hst n (by rw [hq]; exact List.mem_cons_self _ _)
      have hrest : ∀ x ∈ rest, x.retryCount ≤ retryDelays.length := fun x hx =>
        hst x (by rw [hq]; exact List.mem_cons_of_mem _ hx)
      simp only [applyEvent, workerStep, hq] at hj
      split_ifs at hj with hsucc hlt
      · exact hrest j hj
      · rcases List.mem_append.mp hj with hj | hj
        · exact hrest j hj
        · rw [List.mem_singleton.mp hj]
          exact Nat.succ_le_of_lt hlt
      · exact hrest j hj

lemma runEvents_retry_bound (events : List NEvent) (st : NState)
    (hst : ∀ j ∈ st.queue, j.retryCount ≤ retryDelays.length) :
    ∀ j ∈ (runEvents events st).queue, j.retryCount ≤ retryDelays.length := by
  induction events generalizing st with
  | nil => exact hst
  | cons e rest ih => exact ih _ (applyEvent_retry_bound e st hst)

/-- Claim C4: along every event sequence from a fresh manager, the
`retry_count` of every queued job never exceeds `len(self.retry_delays)`
(the configured maximum of 3 retries), and a failed delivery attempt on a
job whose count has reached that maximum removes the job without ever
re-enqueueing it. -/
theorem retryCount_le_max_and_no_reenqueue (events : List NEvent) :
    (∀ j ∈ (runEvents events initState).queue, j.retryCount ≤ retryDelays.length) ∧
    (∀ st : NState, ∀ j : NJob, ∀ rest : List NJob, st.queue = j :: rest →
      retryDelays.length ≤ j.retryCount →
      workerStep false st = { queue := rest, sentLog := st.sentLog }) := by
  constructor
  · exact runEvents_retry_bound events initState (by intro j hj; exact absurd hj (List.not_mem_nil j))
  · intro st j rest hq hmax
    simp only [workerStep, hq]
    rw [if_neg Bool.false_ne_true, if_neg (not_lt.mpr hmax)]

/-- Concrete instance for `retryCount_le_max_and_no_reenqueue`: one enqueue
followed by three failed attempts leaves a job with `retry_count = 3` in the
queue (at the bound), and a fourth failure drops it without re-enqueueing. -/
theorem retryCount_le_max_witness :
    ((runEvents [NEvent.enqueue ⟨some "owner@mail.test", "KA01AB1234"⟩,
        NEvent.attempt false, NEvent.attempt false, NEvent.attempt false] initState).queue
      = [⟨"owner@mail.test", "violation_notice", 3⟩]) ∧
    (⟨"owner@mail.test", "violation_notice", 3⟩ : NJob).retryCount ≤ retryDelays.length ∧
    workerStep false ⟨[⟨"owner@mail.test", "violation_notice", 3⟩], []⟩
      = (⟨[], []⟩ : NState) :=
  ⟨by decide,
   (retryCount_le_max_and_no_reenqueue
       [NEvent.enqueue ⟨some "owner@mail.test", "KA01AB1234"⟩,
        NEvent.attempt false, NEvent.attempt false, NEvent.attempt false]).1
     _ (by decide),
   (retryCount_le_max_and_no_reenqueue []).2
     ⟨[⟨"owner@mail.test", "violation_notice", 3⟩], []⟩
     ⟨"owner@mail.test", "violation_notice", 3⟩
     [] rfl (by decide)⟩

/-- Claim C3 (counterexample): a job is accepted (`send_violation_notice`
returns `True`), then four delivery attempts fail — the last with the retry
budget exhausted. The final state is indistinguishable from a fresh manager:
the job is in neither the queue nor the sent history, the stats report
nothing, and the code has no DEAD status, dead-letter record or failure
callback to surface it through. The job was silently discarded, contradicting
the claim that exhausted jobs transition to DEAD and reach a caller-visible
failure channel. -/
theorem worker_drops_exhausted_job_silently :
    (sendViolationNotice initState ⟨some "owner@mail.test", "KA01AB1234"⟩).1 = true ∧
    runEvents [NEvent.enqueue ⟨some "owner@mail.test", "KA01AB1234"⟩,
        NEvent.attempt false, NEvent.attempt false, NEvent.attempt false,
        NEvent.attempt false] initState = (⟨[], []⟩ : NState) ∧
    getNotificationStats (runEvents [NEvent.enqueue ⟨some "owner@mail.test", "KA01AB1234"⟩,
        NEvent.attempt false, NEvent.attempt false, NEvent.attempt false,
        NEvent.attempt false] initState) = (0, 0, 0) := by
  decide

/-- Claim C3 (amended): when a delivery attempt fails on a job whose retry
budget is exhausted (`retry_count ≥ len(retry_delays)`), the worker removes
the job from the queue without re-enqueueing it and without recording it
anywhere — the resulting state is exactly the old one minus the job. There is
no DEAD status and no failure channel in the code: the job is silently
discarded. -/
theorem workerStep_exhausted_drop (st : NState) (j : NJob) (rest : List NJob)
    (hq : st.queue = j :: rest) (hmax : retryDelays.length ≤ j.retryCount) :
    workerStep false st = { queue := rest, sentLog := st.sentLog } := by
  simp only [workerStep, hq]
  rw [if_neg Bool.false_ne_true, if_neg (not_lt.mpr hmax)]

/-- Concrete instance for `workerStep_exhausted_drop`: a failed attempt on a
job with `retry_count = 3` leaves an empty state. -/
theorem workerStep_exhausted_drop_witness :
    ((⟨[⟨"a@b.test", "violation_notice", 3⟩], []⟩ : NState).queue
        = ⟨"a@b.test", "violation_notice", 3⟩ :: []) ∧
    retryDelays.length ≤ (⟨"a@b.test", "violation_notice", 3⟩ : NJob).retryCount ∧
    workerStep false ⟨[⟨"a@b.test", "violation_notice", 3⟩], []⟩ = (⟨[], []⟩ : NState) :=
  ⟨rfl, by decide,
   workerStep_exhausted_drop ⟨[⟨"a@b.test", "violation_notice", 3⟩], []⟩
     ⟨"a@b.test", "violation_notice", 3⟩ [] rfl (by decide)⟩

/-- Claim C7 (code divergence): after an enqueue and one successful delivery,
one job has reached SENT (the ghost `sentLog` holds it), yet
`get_notification_stats` reports `notifications_sent = 0` and
`failed_notifications = 0`: `_get_sent_count` and `_get_failed_count` are
stubs that return `0` regardless of history; only `queue_size` is computed
from the live job set. -/
theorem getNotificationStats_sent_stub :
    (runEvents [NEvent.enqueue ⟨some "owner@mail.test", "KA77XY0001"⟩,
        NEvent.attempt true] initState).sentLog.length = 1 ∧
    getNotificationStats (runEvents [NEvent.enqueue ⟨some "owner@mail.test", "KA77XY0001"⟩,
        NEvent.attempt true] initState) = (0, 0, 0) := by
  decide

/-- Follows the spec's words for claim C8 ("missing/invalid recipient
address"): the code never inspects the address string, so validity is
modelled minimally — a valid address must contain an at-sign. Used only to
state the claim. -/
def specValidRecipient (addr : String) : Bool := addr.data.contains '@'

/-- Claim C8 (counterexample): a payload carrying a present but invalid
recipient address (the empty string) is NOT rejected at enqueue time:
`send_violation_notice` returns `True` and the job enters the retry queue
with a fresh budget. Only a missing `owner_email` key is rejected. -/
theorem sendViolationNotice_accepts_invalid_recipient :
    specValidRecipient "" = false ∧
    sendViolationNotice initState ⟨some "", "KA01AB1234"⟩
      = (true, ⟨[⟨"", "violation_notice", 0⟩], []⟩) := by
  decide

lemma totalJobs_workerStep_le (success : Bool) (st : NState) :
    totalJobs (workerStep success st) ≤ totalJobs st := by
  cases hq : st.queue with
  | nil => simp [workerStep, hq]
  | cons n rest =>
    simp only [workerStep, hq]
    split_ifs with h1 h2
    · simp only [totalJobs, hq, List.length_append, List.length_cons, List.length_nil]
      omega
    · simp only [totalJobs, hq, List.length_append, List.length_cons, List.length_nil]
      omega
    · simp only [totalJobs, hq, List.length_cons]
      omega

lemma runEvents_totalJobs (events : List NEvent) (st : NState) :
    totalJobs (runEvents events st) ≤ totalJobs st + presentEnqueues events := by
  induction events generalizing st with
  | nil => simp [runEvents, presentEnqueues]
  | cons e rest ih =>
    rw [runEvents]
    refine le_trans (ih (applyEvent e st)) ?_
    cases e with
    | enqueue v =>
      cases hv : v.ownerEmail with
      | none =>
        simp [applyEvent, sendViolationNotice, hv, presentEnqueues]
      | some addr =>
        simp only [applyEvent, sendViolationNotice, hv, presentEnqueues, totalJobs,
          List.length_append, List.length_cons, List.length_nil, Option.isSome_some,
          if_true]
        omega
    | attempt success =>
      have h := totalJobs_workerStep_le success st
      simp only [applyEvent, presentEnqueues]
      omega

/-- Claim C8 (amended): a payload whose `owner_email` key is missing is
rejected synchronously — `send_violation_notice` returns `False` and the
state is unchanged, so it never contributes a job or consumes a delivery
attempt (along every event sequence the jobs ever accepted are bounded by
the number of enqueues that carry a recipient); but a payload with a present
address is never validated: any string, valid or not, is enqueued with a
fresh retry budget. -/
theorem sendViolationNotice_missing_rejected (events : List NEvent) :
    (∀ st v, v.ownerEmail = none → sendViolationNotice st v = (false, st)) ∧
    (∀ st v addr, v.ownerEmail = some addr →
      sendViolationNotice st v
        = (true, { st with queue := st.queue ++ [⟨addr, "violation_notice", 0⟩] })) ∧
    totalJobs (runEvents events initState) ≤ presentEnqueues events := by
  refine ⟨?_, ?_, ?_⟩
  · intro st v hv
    simp [sendViolationNotice, hv]
  · intro st v addr hv
    simp [sendViolationNotice, hv]
  · have h := runEvents_totalJobs events initState
    simpa [totalJobs, initState] using h

/-- Concrete instance for `sendViolationNotice_missing_rejected`: a payload
with no recipient is rejected and contributes nothing. -/
theorem sendViolationNotice_missing_rejected_witness :
    ((⟨none, "KA01AB1234"⟩ : ViolationData).ownerEmail = none) ∧
    sendViolationNotice initState ⟨none, "KA01AB1234"⟩ = (false, initState) ∧
    totalJobs (runEvents [NEvent.enqueue ⟨none, "KA01AB1234"⟩] initState)
      ≤ presentEnqueues [NEvent.enqueue ⟨none, "KA01AB1234"⟩] :=
  ⟨rfl,
   (sendViolationNotice_missing_rejected []).1 initState ⟨none, "KA01AB1234"⟩ rfl,
   (sendViolationNotice_missing_rejected [NEvent.enqueue ⟨none, "KA01AB1234"⟩]).2.2⟩

/-- A row of the `vehicle_owners` table (`license_plate` is the primary key;
only the columns read by `get_violations` are modelled). -/
structure OwnerRow where
  licensePlate : String
  ownerName : String
  email : String
deriving DecidableEq, Repr

/-- A row of the `violations` table, with the columns `get_violations`
consults (`license_plate` for the join, `processedFlag` for the filter). -/
structure ViolationRow where
  licensePlate : String
  violationType : String
  processedFlag : Bool
deriving DecidableEq, Repr

/-- The database created by `setup_database`: the two tables. -/
structure DB where
  owners : List OwnerRow
  violations : List ViolationRow
deriving DecidableEq, Repr

/-- A result row of `get_violations`: `SELECT v.*, o.owner_name, o.email`. -/
structure ViolationJoinRow where
  violation : ViolationRow
  ownerName : String
  email : String
deriving DecidableEq, Repr

/-- Embeds `DatabaseManager.get_violations`: the inner `JOIN` of `violations`
with `vehicle_owners` on `license_plate`, restricted by `WHERE v.processed = ?`. -/
def getViolations (db : DB) (processed : Bool) : List ViolationJoinRow :=
  (db.violations.flatMap fun v =>
      (db.owners.filter fun o => o.licensePlate == v.licensePlate).map fun o =>
        { violation := v, ownerName := o.ownerName, email := o.email }).filter
    fun r => r.violation.processedFlag == processed

/-- Claim C10: `get_violations` returns only violations whose license plate
has a matching row in `vehicle_owners` (the query is an inner join), for
either value of the `processed` flag; a recorded violation whose plate is
not registered as an owner is never returned. -/
theorem getViolations_only_registered (db : DB) (p : Bool) :
    (∀ row ∈ getViolations db p, ∃ o ∈ db.owners,
        o.licensePlate = row.violation.licensePlate) ∧
    (∀ v : ViolationRow, (∀ o ∈ db.owners, o.licensePlate ≠ v.licensePlate) →
      ∀ row ∈ getViolations db p, row.violation ≠ v) := by
  constructor
  · intro row hrow
    have h1 := List.mem_filter.mp hrow
    rcases List.mem_flatMap.mp h1.1 with ⟨v, hv, hrow2⟩
    rcases List.mem_map.mp hrow2 with ⟨o, ho, rfl⟩
    have ho2 := List.mem_filter.mp ho
    exact ⟨o, ho2.1, eq_of_beq ho2.2⟩
  · intro v hunreg row hrow heq
    have h1 := List.mem_filter.mp hrow
    rcases List.mem_flatMap.mp h1.1 with ⟨v2, hv2, hrow2⟩
    rcases List.mem_map.mp hrow2 with ⟨o, ho, rfl⟩
    have ho2 := List.mem_filter.mp ho
    exact hunreg o ho2.1 (heq ▸ eq_of_beq ho2.2)

/-- Concrete instance for `getViolations_only_registered`: with one
registered owner and two recorded violations, the pending query never
returns the violation whose plate is unregistered. -/
theorem getViolations_only_registered_witness :
    (∀ o ∈ ([⟨"KA01AB1234", "Asha", "a@mail.test"⟩] : List OwnerRow),
        o.licensePlate ≠ "MH12ZZ9999") ∧
    ∀ row ∈ getViolations
        ⟨[⟨"KA01AB1234", "Asha", "a@mail.test"⟩],
          [⟨"KA01AB1234", "no_helmet", false⟩, ⟨"MH12ZZ9999", "no_helmet", false⟩]⟩ false,
      row.violation ≠ (⟨"MH12ZZ9999", "no_helmet", false⟩ : ViolationRow) :=
  ⟨by decide,
   (getViolations_only_registered
       ⟨[⟨"KA01AB1234", "Asha", "a@mail.test"⟩],
         [⟨"KA01AB1234", "no_helmet", false⟩, ⟨"MH12ZZ9999", "no_helmet", false⟩]⟩
       false).2
     ⟨"MH12ZZ9999", "no_helmet", false⟩ (by decide)⟩
